import Mathlib

/-!
Shallow embedding of the timetable application's core (src/App.tsx):
the Schedule store, the undo/redo history reducer, the per-action
application reducer, and state initialization.  The helpers imported by
App.tsx from `./utils` (calculateTimeSlots, runOptimization, deepMerge)
are not present under src/, so they are modelled from the written design
document; each such definition is marked by a doc comment starting with
"Modelled from the spec:".
-/

set_option maxRecDepth 4000

namespace ElyasTime

/-- A lesson placement value (`LessonData` in types): a denormalized
teacher id plus descriptive fields. -/
structure LessonData where
  teacherId : String
  subject : String
deriving DecidableEq

/-- The Schedule store: a JS object mapping composite string keys
(`classId_day_period`) to placements.  Embedded as an association list in
object insertion order; a JS object never holds a duplicate key. -/
abbrev Schedule := List (String × LessonData)

structure Teacher where
  id : String
  name : String
  color : String
deriving DecidableEq

structure ClassGroup where
  id : String
  name : String
deriving DecidableEq

structure TimeSettings where
  lessonDuration : Nat
  breakDuration : Nat
  lessonsBeforeBreak : Nat
  startTime : String
  totalLessons : Nat
deriving DecidableEq

/-- `design.lesson` card style object from DEFAULT_STATE. -/
structure LessonCardDesign where
  borderColor : String
  backgroundColor : String
  borderWidth : Nat
  borderRadius : Nat
  margin : Nat
  borderStyle : String
  shadow : String
  fontSize : Nat
deriving DecidableEq

/-- `design.break` card style object from DEFAULT_STATE (the source field
is named `break`, a Lean keyword, hence `breakCard` here). -/
structure BreakCardDesign where
  borderColor : String
  backgroundColor : String
  borderWidth : Nat
  borderRadius : Nat
  margin : Nat
  borderStyle : String
  shadow : String
deriving DecidableEq

structure DesignSettings where
  lesson : LessonCardDesign
  breakCard : BreakCardDesign
deriving DecidableEq

structure UISettings where
  theme : String
  primaryColor : String
  language : String
deriving DecidableEq

structure PrintDesignSettings where
  title : String
  subtitle : String
  footerText : String
  watermarkText : String
  showLegend : Bool
  showTeacherName : Bool
  showTimes : Bool
  showFooter : Bool
  showWatermark : Bool
  scale : Nat
  paddingX : Nat
  paddingY : Nat
  direction : String
  theme : String
  primaryColor : String
  headerStyle : String
  fontStyle : String
  fontSizeTitle : Nat
  fontSizeSubtitle : Nat
  fontSizeHeader : Nat
  fontSizeSubject : Nat
  fontSizeTeacher : Nat
  teacherDisplayMode : String
  cellMinHeight : Nat
  cellVerticalAlign : String
  cellGap : Nat
  cellPadding : Nat
deriving DecidableEq

structure AppState where
  teachers : List Teacher
  classes : List ClassGroup
  schedule : Schedule
  settings : TimeSettings
  design : DesignSettings
  ui : UISettings
  printDesign : PrintDesignSettings
deriving DecidableEq

/-- DEFAULT_STATE from App.tsx.  `COLORS` comes from `./types`, which is
not under src/; the two palette entries are kept as opaque color strings
(no claim inspects a color value). -/
def DEFAULT_STATE : AppState :=
  { teachers :=
      [ { id := "t1", name := "ښوونکی ۱", color := "colors-6" },
        { id := "t2", name := "ښوونکی ۲", color := "colors-10" } ],
    classes :=
      [ { id := "c1", name := "۱ ټولګی" },
        { id := "c2", name := "۲ ټولګی" } ],
    schedule := [],
    settings :=
      { lessonDuration := 45, breakDuration := 15, lessonsBeforeBreak := 2,
        startTime := "08:00", totalLessons := 6 },
    design :=
      { lesson :=
          { borderColor := "#cbd5e1", backgroundColor := "#ffffff",
            borderWidth := 1, borderRadius := 8, margin := 4,
            borderStyle := "solid", shadow := "none", fontSize := 13 },
        breakCard :=
          { borderColor := "#e2e8f0", backgroundColor := "#f8fafc",
            borderWidth := 0, borderRadius := 8, margin := 4,
            borderStyle := "none", shadow := "inner" } },
    ui := { theme := "system", primaryColor := "#6366f1", language := "ps" },
    printDesign :=
      { title := "د مدرسې اونیز مهال ویش", subtitle := "ښوونیز کال ۱۴۰۳-۱۴۰۴",
        footerText := "د مدرسې اداره", watermarkText := "مسوده",
        showLegend := true, showTeacherName := true, showTimes := true,
        showFooter := true, showWatermark := false,
        scale := 100, paddingX := 40, paddingY := 40, direction := "rtl",
        theme := "classic", primaryColor := "#1e293b", headerStyle := "solid",
        fontStyle := "normal",
        fontSizeTitle := 32, fontSizeSubtitle := 18, fontSizeHeader := 14,
        fontSizeSubject := 14, fontSizeTeacher := 11,
        teacherDisplayMode := "badge", cellMinHeight := 90,
        cellVerticalAlign := "center", cellGap := 6, cellPadding := 4 } }

/-! ### Patch payloads (TypeScript `Partial<...>` spread payloads) -/

structure TimeSettingsPatch where
  lessonDuration : Option Nat := none
  breakDuration : Option Nat := none
  lessonsBeforeBreak : Option Nat := none
  startTime : Option String := none
  totalLessons : Option Nat := none
deriving DecidableEq

def applyTimeSettingsPatch (s : TimeSettings) (p : TimeSettingsPatch) : TimeSettings :=
  { lessonDuration := p.lessonDuration.getD s.lessonDuration,
    breakDuration := p.breakDuration.getD s.breakDuration,
    lessonsBeforeBreak := p.lessonsBeforeBreak.getD s.lessonsBeforeBreak,
    startTime := p.startTime.getD s.startTime,
    totalLessons := p.totalLessons.getD s.totalLessons }

/-- Payload of UPDATE_DESIGN: the spread `{...state.design, ...payload}` is
shallow, so a provided sub-object replaces the whole sub-object. -/
structure DesignSettingsPatch where
  lesson : Option LessonCardDesign := none
  breakCard : Option BreakCardDesign := none
deriving DecidableEq

def applyDesignSettingsPatch (s : DesignSettings) (p : DesignSettingsPatch) : DesignSettings :=
  { lesson := p.lesson.getD s.lesson, breakCard := p.breakCard.getD s.breakCard }

structure UISettingsPatch where
  theme : Option String := none
  primaryColor : Option String := none
  language : Option String := none
deriving DecidableEq

def applyUISettingsPatch (s : UISettings) (p : UISettingsPatch) : UISettings :=
  { theme := p.theme.getD s.theme,
    primaryColor := p.primaryColor.getD s.primaryColor,
    language := p.language.getD s.language }

structure PrintDesignSettingsPatch where
  title : Option String := none
  subtitle : Option String := none
  footerText : Option String := none
  watermarkText : Option String := none
  showLegend : Option Bool := none
  showTeacherName : Option Bool := none
  showTimes : Option Bool := none
  showFooter : Option Bool := none
  showWatermark : Option Bool := none
  scale : Option Nat := none
  paddingX : Option Nat := none
  paddingY : Option Nat := none
  direction : Option String := none
  theme : Option String := none
  primaryColor : Option String := none
  headerStyle : Option String := none
  fontStyle : Option String := none
  fontSizeTitle : Option Nat := none
  fontSizeSubtitle : Option Nat := none
  fontSizeHeader : Option Nat := none
  fontSizeSubject : Option Nat := none
  fontSizeTeacher : Option Nat := none
  teacherDisplayMode : Option String := none
  cellMinHeight : Option Nat := none
  cellVerticalAlign : Option String := none
  cellGap : Option Nat := none
  cellPadding : Option Nat := none
deriving DecidableEq

def applyPrintDesignSettingsPatch (s : PrintDesignSettings)
    (p : PrintDesignSettingsPatch) : PrintDesignSettings :=
  { title := p.title.getD s.title,
    subtitle := p.subtitle.getD s.subtitle,
    footerText := p.footerText.getD s.footerText,
    watermarkText := p.watermarkText.getD s.watermarkText,
    showLegend := p.showLegend.getD s.showLegend,
    showTeacherName := p.showTeacherName.getD s.showTeacherName,
    showTimes := p.showTimes.getD s.showTimes,
    showFooter := p.showFooter.getD s.showFooter,
    showWatermark := p.showWatermark.getD s.showWatermark,
    scale := p.scale.getD s.scale,
    paddingX := p.paddingX.getD s.paddingX,
    paddingY := p.paddingY.getD s.paddingY,
    direction := p.direction.getD s.direction,
    theme := p.theme.getD s.theme,
    primaryColor := p.primaryColor.getD s.primaryColor,
    headerStyle := p.headerStyle.getD s.headerStyle,
    fontStyle := p.fontStyle.getD s.fontStyle,
    fontSizeTitle := p.fontSizeTitle.getD s.fontSizeTitle,
    fontSizeSubtitle := p.fontSizeSubtitle.getD s.fontSizeSubtitle,
    fontSizeHeader := p.fontSizeHeader.getD s.fontSizeHeader,
    fontSizeSubject := p.fontSizeSubject.getD s.fontSizeSubject,
    fontSizeTeacher := p.fontSizeTeacher.getD s.fontSizeTeacher,
    teacherDisplayMode := p.teacherDisplayMode.getD s.teacherDisplayMode,
    cellMinHeight := p.cellMinHeight.getD s.cellMinHeight,
    cellVerticalAlign := p.cellVerticalAlign.getD s.cellVerticalAlign,
    cellGap := p.cellGap.getD s.cellGap,
    cellPadding := p.cellPadding.getD s.cellPadding }

/-! ### Deep partial shapes for the State Reconciler -/

structure LessonCardDesignPatch where
  borderColor : Option String := none
  backgroundColor : Option String := none
  borderWidth : Option Nat := none
  borderRadius : Option Nat := none
  margin : Option Nat := none
  borderStyle : Option String := none
  shadow : Option String := none
  fontSize : Option Nat := none
deriving DecidableEq

def applyLessonCardDesignPatch (s : LessonCardDesign)
    (p : LessonCardDesignPatch) : LessonCardDesign :=
  { borderColor := p.borderColor.getD s.borderColor,
    backgroundColor := p.backgroundColor.getD s.backgroundColor,
    borderWidth := p.borderWidth.getD s.borderWidth,
    borderRadius := p.borderRadius.getD s.borderRadius,
    margin := p.margin.getD s.margin,
    borderStyle := p.borderStyle.getD s.borderStyle,
    shadow := p.shadow.getD s.shadow,
    fontSize := p.fontSize.getD s.fontSize }

structure BreakCardDesignPatch where
  borderColor : Option String := none
  backgroundColor : Option String := none
  borderWidth : Option Nat := none
  borderRadius : Option Nat := none
  margin : Option Nat := none
  borderStyle : Option String := none
  shadow : Option String := none
deriving DecidableEq

def applyBreakCardDesignPatch (s : BreakCardDesign)
    (p : BreakCardDesignPatch) : BreakCardDesign :=
  { borderColor := p.borderColor.getD s.borderColor,
    backgroundColor := p.backgroundColor.getD s.backgroundColor,
    borderWidth := p.borderWidth.getD s.borderWidth,
    borderRadius := p.borderRadius.getD s.borderRadius,
    margin := p.margin.getD s.margin,
    borderStyle := p.borderStyle.getD s.borderStyle,
    shadow := p.shadow.getD s.shadow }

structure DesignSettingsDeepPatch where
  lesson : Option LessonCardDesignPatch := none
  breakCard : Option BreakCardDesignPatch := none
deriving DecidableEq

def mergeDesignSettings (s : DesignSettings) (p : DesignSettingsDeepPatch) : DesignSettings :=
  { lesson :=
      match p.lesson with
      | none => s.lesson
      | some lp => applyLessonCardDesignPatch s.lesson lp,
    breakCard :=
      match p.breakCard with
      | none => s.breakCard
      | some bp => applyBreakCardDesignPatch s.breakCard bp }

/-- An untrusted persisted/imported blob after JSON parsing: every field of
the AppState shape may be missing, and nested settings/design objects may
themselves be missing fields. -/
structure AppStatePatch where
  teachers : Option (List Teacher) := none
  classes : Option (List ClassGroup) := none
  schedule : Option Schedule := none
  settings : Option TimeSettingsPatch := none
  design : Option DesignSettingsDeepPatch := none
  ui : Option UISettingsPatch := none
  printDesign : Option PrintDesignSettingsPatch := none
deriving DecidableEq

/-- The all-missing persisted blob (`{}`). -/
def emptyAppStatePatch : AppStatePatch := {}

/-- Modelled from the spec: `deepMerge` lives in `./utils`, which is not
under src/.  Per the design document's State Reconciler contract: each
field supplied by the incoming blob wins, otherwise the default is kept;
the rule applies recursively to the nested settings/design objects, while
the collection-valued fields (teachers, classes, schedule) are taken
wholesale from the incoming blob when present. -/
def deepMerge (d : AppState) (p : AppStatePatch) : AppState :=
  { teachers := p.teachers.getD d.teachers,
    classes := p.classes.getD d.classes,
    schedule := p.schedule.getD d.schedule,
    settings :=
      match p.settings with
      | none => d.settings
      | some sp => applyTimeSettingsPatch d.settings sp,
    design :=
      match p.design with
      | none => d.design
      | some dp => mergeDesignSettings d.design dp,
    ui :=
      match p.ui with
      | none => d.ui
      | some up => applyUISettingsPatch d.ui up,
    printDesign :=
      match p.printDesign with
      | none => d.printDesign
      | some pp => applyPrintDesignSettingsPatch d.printDesign pp }

/-! ### Schedule store operations (JS object semantics) -/

/-- `obj[k]` on a JS object: first (only) binding of the key. -/
def getKey : Schedule → String → Option LessonData
  | [], _ => none
  | (k', v) :: rest, k => if k' = k then some v else getKey rest k

def hasKey (s : Schedule) (k : String) : Bool :=
  s.any (fun kv => kv.1 = k)

/-- `obj[k] = v`: replaces the binding in place when the key exists,
appends it in insertion order otherwise. -/
def setKey (s : Schedule) (k : String) (v : LessonData) : Schedule :=
  if hasKey s k then s.map (fun kv => if kv.1 = k then (k, v) else kv)
  else s ++ [(k, v)]

/-- `delete obj[k]`. -/
def eraseKey (s : Schedule) (k : String) : Schedule :=
  s.filter (fun kv => kv.1 ≠ k)

/-! ### Kernel-computable string helpers

The JS code builds and tests composite keys with template strings,
`String.prototype.startsWith` and number-to-decimal-string conversion.
The Lean core library versions of these operations are defined by
well-founded recursion over byte positions and do not reduce inside the
kernel, so the same operations are spelled out here over the character
list of the string (`String.data`), to which they are extensionally
equal. -/

/-- `s.startsWith pre` (JS `String.prototype.startsWith`). -/
def strStartsWith (s pre : String) : Bool :=
  pre.data.isPrefixOf s.data

/-- Decimal digits accumulator for a digit-only character run. -/
def charsToNat : List Char → Nat → Option Nat
  | [], acc => some acc
  | c :: cs, acc =>
    if c.isDigit then charsToNat cs (acc * 10 + (c.toNat - 48)) else none

/-- Parse a non-empty all-digit character run as a decimal number. -/
def digitsToNat (cs : List Char) : Option Nat :=
  match cs with
  | [] => none
  | _ => charsToNat cs 0

/-- Split a character list on a separator character. -/
def splitOnChar (sep : Char) : List Char → List Char → List (List Char)
  | [], acc => [acc.reverse]
  | c :: cs, acc =>
    if c = sep then acc.reverse :: splitOnChar sep cs []
    else splitOnChar sep cs (c :: acc)

/-- Decimal rendering of a natural number (JS template `${n}`). -/
def natToChars : Nat → Nat → List Char
  | 0, _ => []
  | fuel + 1, n =>
    if n < 10 then [Nat.digitChar n]
    else natToChars fuel (n / 10) ++ [Nat.digitChar (n % 10)]

def natToString (n : Nat) : String :=
  ⟨natToChars (n + 1) n⟩

/-! ### Time Grid Calculator and Optimizer Engine (from ./utils) -/

structure TimeSlot where
  index : Nat
  isBreak : Bool
  startMin : Nat
  endMin : Nat
deriving DecidableEq

/-- Parse an "HH:MM" clock string to minutes from midnight. -/
def parseHHMM (s : String) : Option Nat :=
  match splitOnChar ':' s.data [] with
  | [h, m] =>
    match digitsToNat h, digitsToNat m with
    | some hh, some mm => if hh < 24 ∧ mm < 60 then some (hh * 60 + mm) else none
    | _, _ => none
  | _ => none

/-- One step per remaining lesson: emit the lesson slot, and after the
`placed+1`-th lesson emit a break slot when `placed+1` is a multiple of
`before` and lessons remain (no trailing break). -/
def slotsAux (lessonDur breakDur before : Nat) :
    Nat → Nat → Nat → Nat → List TimeSlot
  | 0, _, _, _ => []
  | rem + 1, placed, idx, t =>
    if (placed + 1) % before = 0 ∧ rem ≠ 0 then
      ⟨idx, false, t, t + lessonDur⟩ ::
        ⟨idx + 1, true, t + lessonDur, t + lessonDur + breakDur⟩ ::
        slotsAux lessonDur breakDur before rem (placed + 1) (idx + 2)
          (t + lessonDur + breakDur)
    else
      ⟨idx, false, t, t + lessonDur⟩ ::
        slotsAux lessonDur breakDur before rem (placed + 1) (idx + 1)
          (t + lessonDur)

/-- Modelled from the spec: `calculateTimeSlots` lives in `./utils`, which
is not under src/.  Per the Time Grid Calculator contract: exactly
`totalLessons` lesson slots accumulating from `startTime`, a break slot of
`breakDuration` minutes after every `lessonsBeforeBreak` lessons (never
after the last lesson), each lesson lasting `lessonDuration` minutes; an
unparseable `startTime` is a configuration error, rendered here as the
empty sequence. -/
def calculateTimeSlots (s : TimeSettings) : List TimeSlot :=
  match parseHHMM s.startTime with
  | none => []
  | some start =>
    slotsAux s.lessonDuration s.breakDuration s.lessonsBeforeBreak
      s.totalLessons 0 0 start

/-- An optimizer working placement: a lesson assigned to a (class, slot)
position. -/
structure Placement where
  classId : String
  slotIdx : Nat
  data : LessonData
deriving DecidableEq

/-- The (class, slot) position is not yet filled. -/
def slotFree (placed : List Placement) (c : String) (i : Nat) : Bool :=
  !placed.any (fun p => p.classId = c ∧ p.slotIdx = i)

/-- The lesson's teacher is not already committed to a different class at
the same slot index. -/
def conflictFree (placed : List Placement) (c tid : String) (i : Nat) : Bool :=
  !placed.any (fun p => p.slotIdx = i ∧ p.data.teacherId = tid ∧ p.classId ≠ c)

/-- First conflict-free free slot in slot order, else first free slot as a
best effort (accepting a teacher conflict). -/
def firstFit (placed : List Placement) (c tid : String) (periods : List Nat) :
    Option Nat :=
  match periods.find? (fun i => slotFree placed c i && conflictFree placed c tid i) with
  | some i => some i
  | none => periods.find? (fun i => slotFree placed c i)

/-- Place a class's pending lessons one by one; a lesson with no free slot
left cannot be assigned a position. -/
def placeClassLessons (periods : List Nat) (c : String) :
    List LessonData → List Placement → List Placement
  | [], placed => placed
  | d :: rest, placed =>
    match firstFit placed c d.teacherId periods with
    | some i => placeClassLessons periods c rest (placed ++ [⟨c, i, d⟩])
    | none => placeClassLessons periods c rest placed

/-- The existing placements of a class: the entries whose key lies under
`classId_`, in store order (the class's pool of lessons to place). -/
def classPool (sched : Schedule) (cid : String) : List LessonData :=
  (sched.filter (fun kv => strStartsWith kv.1 (cid ++ "_"))).map Prod.snd

/-- Modelled from the spec: `runOptimization` lives in `./utils`, which is
not under src/.  Per the Optimizer Engine contract: partition the current
placements by class (placements of deleted classes are pruned), then for
each class place its pending lessons over the assignable slot indices
(breaks skipped) by first conflict-free fit with a first-free-slot best
effort, and return the wholesale replacement schedule. -/
def runOptimization (sched : Schedule) (classes : List ClassGroup)
    (slots : List TimeSlot) : Schedule :=
  let periods := List.range (slots.filter (fun sl => !sl.isBreak)).length
  (classes.foldl
      (fun acc c => placeClassLessons periods c.id (classPool sched c.id) acc)
      []).map
    (fun p => (p.classId ++ "_" ++ natToString p.slotIdx, p.data))

/-! ### Actions and reducers (App.tsx) -/

inductive Action where
  | INIT (payload : AppStatePatch)
  | UNDO
  | REDO
  | ADD_TEACHER (t : Teacher)
  | UPDATE_TEACHER (t : Teacher)
  | DELETE_TEACHER (id : String)
  | ADD_CLASS (c : ClassGroup)
  | UPDATE_CLASS (c : ClassGroup)
  | DELETE_CLASS (id : String)
  | UPDATE_SETTINGS (p : TimeSettingsPatch)
  | UPDATE_DESIGN (p : DesignSettingsPatch)
  | UPDATE_PRINT_DESIGN (p : PrintDesignSettingsPatch)
  | UPDATE_UI (p : UISettingsPatch)
  | SET_LESSON (key : String) (data : Option LessonData)
  | MOVE_LESSON (fromKey toKey : String)
  | OPTIMIZE_SCHEDULE
  | REPLACE_SCHEDULE (s : Schedule)
  | RESET_PROJECT
deriving DecidableEq

/-- The inner `appReducer` of App.tsx; INIT, UNDO, REDO and RESET_PROJECT
never reach it (the outer reducer handles them), so they fall to its
`default: return state` branch. -/
def appReducer (state : AppState) (action : Action) : AppState :=
  match action with
  | .ADD_TEACHER t => { state with teachers := state.teachers ++ [t] }
  | .UPDATE_TEACHER t =>
      { state with
        teachers := state.teachers.map (fun x => if x.id = t.id then t else x) }
  | .DELETE_TEACHER id =>
      { state with
        teachers := state.teachers.filter (fun t => t.id ≠ id),
        schedule := state.schedule.filter (fun kv => kv.2.teacherId ≠ id) }
  | .ADD_CLASS c => { state with classes := state.classes ++ [c] }
  | .UPDATE_CLASS c =>
      { state with
        classes := state.classes.map (fun x => if x.id = c.id then c else x) }
  | .DELETE_CLASS id =>
      { state with
        classes := state.classes.filter (fun c => c.id ≠ id),
        schedule := state.schedule.filter (fun kv => !strStartsWith kv.1 (id ++ "_")) }
  | .UPDATE_SETTINGS p =>
      { state with settings := applyTimeSettingsPatch state.settings p }
  | .UPDATE_DESIGN p =>
      { state with design := applyDesignSettingsPatch state.design p }
  | .UPDATE_PRINT_DESIGN p =>
      { state with printDesign := applyPrintDesignSettingsPatch state.printDesign p }
  | .UPDATE_UI p =>
      { state with ui := applyUISettingsPatch state.ui p }
  | .SET_LESSON key data =>
      match data with
      | none => { state with schedule := eraseKey state.schedule key }
      | some d => { state with schedule := setKey state.schedule key d }
  | .MOVE_LESSON fromKey toKey =>
      match getKey state.schedule fromKey, getKey state.schedule toKey with
      | none, _ => state
      | some itemToMove, some itemAtTarget =>
          { state with
            schedule := setKey (setKey state.schedule toKey itemToMove) fromKey itemAtTarget }
      | some itemToMove, none =>
          { state with
            schedule := eraseKey (setKey state.schedule toKey itemToMove) fromKey }
  | .OPTIMIZE_SCHEDULE =>
      { state with
        schedule := runOptimization state.schedule state.classes
          (calculateTimeSlots state.settings) }
  | .REPLACE_SCHEDULE s => { state with schedule := s }
  | _ => state

/-- The outer reducer compares `appReducer`'s result against the previous
present by JavaScript reference equality (`newPresent === present`).
`appReducer` hands back the incoming object itself exactly on its
`default` branch and on MOVE_LESSON with an unoccupied source key; every
other branch builds a fresh object, which is never reference-equal. -/
def appReducerSame (state : AppState) (action : Action) : Bool :=
  match action with
  | .MOVE_LESSON fromKey _ => (getKey state.schedule fromKey).isNone
  | .INIT _ | .UNDO | .REDO | .RESET_PROJECT => true
  | _ => false

/-- The four action kinds recorded into history. -/
def isUndoable (action : Action) : Bool :=
  match action with
  | .SET_LESSON _ _ | .MOVE_LESSON _ _ | .REPLACE_SCHEDULE _
  | .OPTIMIZE_SCHEDULE => true
  | _ => false

def HISTORY_LIMIT : Nat := 100

structure HistoryState where
  past : List Schedule
  present : AppState
  future : List Schedule
deriving DecidableEq

/-- The outer history reducer of App.tsx. -/
def reducer (state : HistoryState) (action : Action) : HistoryState :=
  match action with
  | .INIT payload =>
      { past := [], present := deepMerge DEFAULT_STATE payload, future := [] }
  | .RESET_PROJECT =>
      { past := [], future := [],
        present :=
          { DEFAULT_STATE with
            teachers := [], classes := [], schedule := [],
            ui := state.present.ui } }
  | .UNDO =>
      match state.past.getLast? with
      | none => state
      | some prevSchedule =>
          { past := state.past.dropLast,
            present := { state.present with schedule := prevSchedule },
            future := state.present.schedule :: state.future }
  | .REDO =>
      match state.future with
      | [] => state
      | nextSchedule :: rest =>
          { past := state.past ++ [state.present.schedule],
            present := { state.present with schedule := nextSchedule },
            future := rest }
  | a =>
      let newPresent := appReducer state.present a
      if appReducerSame state.present a then state
      else if isUndoable a then
        let updatedPast := state.past ++ [state.present.schedule]
        let trimmedPast :=
          if HISTORY_LIMIT < updatedPast.length then updatedPast.tail
          else updatedPast
        { past := trimmedPast, present := newPresent, future := [] }
      else { state with present := newPresent }

/-- The `initData` closure of App.tsx.  Its input is the persisted
payload's fate: `none` when localStorage holds nothing under the key,
`some none` when the stored string fails to parse (the thrown error is
caught), and `some (some p)` for a successfully parsed blob. -/
def initData (stored : Option (Option AppStatePatch)) : HistoryState :=
  match stored with
  | some (some parsed) =>
      { past := [], present := deepMerge DEFAULT_STATE parsed, future := [] }
  | some none => { past := [], present := DEFAULT_STATE, future := [] }
  | none => { past := [], present := DEFAULT_STATE, future := [] }

/-! ### History manager lemmas -/

/-- The schedule snapshot pushed by a record lands at the end of `past`,
whether or not the oldest entry was trimmed. -/
lemma trimmedPast_getLast (l : List Schedule) (x : Schedule) :
    (if HISTORY_LIMIT < (l ++ [x]).length then (l ++ [x]).tail
     else l ++ [x]).getLast? = some x := by
  cases l with
  | nil => simp [HISTORY_LIMIT]
  | cons h t =>
    by_cases hlen : HISTORY_LIMIT < ((h :: t) ++ [x]).length
    · rw [if_pos hlen, List.cons_append, List.tail_cons]
      exact List.getLast?_concat t
    · rw [if_neg hlen]
      exact List.getLast?_concat (h :: t)

/-- On a recorded undoable mutation the reducer takes the history branch. -/
lemma reducer_record (s : HistoryState) (a : Action)
    (hu : isUndoable a = true) (hsame : appReducerSame s.present a = false) :
    reducer s a =
      { past :=
          if HISTORY_LIMIT < (s.past ++ [s.present.schedule]).length
          then (s.past ++ [s.present.schedule]).tail
          else s.past ++ [s.present.schedule],
        present := appReducer s.present a,
        future := [] } := by
  cases a <;> simp_all [reducer, isUndoable, appReducerSame]
  intro hnone
  rw [hnone] at hsame
  simp at hsame

/-- Claim C1: for every HistoryState, undo immediately after a recorded
undoable mutation restores the exact schedule present before the
mutation; redo immediately after an undo restores the schedule the undo
removed; and undo with empty past (resp. redo with empty future) returns
the state unchanged. -/
theorem undo_redo_round_trip (s : HistoryState) (a : Action)
    (hu : isUndoable a = true) (hrec : appReducerSame s.present a = false) :
    (reducer (reducer s a) Action.UNDO).present.schedule = s.present.schedule
    ∧ (s.past ≠ [] →
        (reducer (reducer s Action.UNDO) Action.REDO).present.schedule
          = s.present.schedule)
    ∧ (s.past = [] → reducer s Action.UNDO = s)
    ∧ (s.future = [] → reducer s Action.REDO = s) := by
  refine ⟨?_, ?_, ?_, ?_⟩
  · rw [reducer_record s a hu hrec]
    simp only [reducer]
    rw [trimmedPast_getLast]
  · intro hp
    cases hpast : s.past.getLast? with
    | none => exact absurd (List.getLast?_eq_none_iff.mp hpast) hp
    | some prev => simp [reducer, hpast]
  · intro hp
    simp [reducer, List.getLast?_eq_none_iff.mpr hp]
  · intro hf
    simp [reducer, hf]

/-- A concrete run of `undo_redo_round_trip`: a one-entry past and
future around a present holding one placement. -/
def rtState : HistoryState :=
  { past := [[]],
    present :=
      { DEFAULT_STATE with schedule := [("c1_0_0", ⟨"t1", "m"⟩)] },
    future := [[]] }

theorem undo_redo_round_trip_witness :
    ((reducer (reducer rtState (Action.REPLACE_SCHEDULE [])) Action.UNDO).present.schedule
        = rtState.present.schedule
      ∧ (reducer (reducer rtState Action.UNDO) Action.REDO).present.schedule
        = rtState.present.schedule)
    ∧ (reducer (initData none) Action.UNDO = initData none
      ∧ reducer (initData none) Action.REDO = initData none) := by
  have h := undo_redo_round_trip rtState (Action.REPLACE_SCHEDULE [])
    (by decide) (by decide)
  have h0 := undo_redo_round_trip (initData none) (Action.REPLACE_SCHEDULE [])
    (by decide) (by decide)
  exact ⟨⟨h.1, h.2.1 (by decide)⟩, h0.2.2.1 (by decide), h0.2.2.2 (by decide)⟩

/-- Claim C2: an undoable action whose resulting schedule differs from the
current one makes the reducer push the prior present schedule onto past
(dropping the oldest entry when the 100-entry bound is exceeded), empty
the future stack, and install the new present. -/
theorem record_undoable_mutation (s : HistoryState) (a : Action)
    (hu : isUndoable a = true)
    (hdiff : (appReducer s.present a).schedule ≠ s.present.schedule) :
    (reducer s a).future = []
    ∧ (reducer s a).present = appReducer s.present a
    ∧ (s.past.length < HISTORY_LIMIT →
        (reducer s a).past = s.past ++ [s.present.schedule])
    ∧ (HISTORY_LIMIT ≤ s.past.length →
        (reducer s a).past = s.past.tail ++ [s.present.schedule]) := by
  have hsame : appReducerSame s.present a = false := by
    cases a <;> simp_all [isUndoable, appReducerSame]
    next fk tk =>
      cases hk : getKey s.present.schedule fk with
      | none => exact absurd (by simp [appReducer, hk] : _ = _) hdiff
      | some v => simp
  rw [reducer_record s a hu hsame]
  refine ⟨rfl, rfl, ?_, ?_⟩
  · intro hlt
    have hcond : ¬ HISTORY_LIMIT < (s.past ++ [s.present.schedule]).length := by
      rw [List.length_append, List.length_singleton]
      omega
    show (if HISTORY_LIMIT < (s.past ++ [s.present.schedule]).length
          then (s.past ++ [s.present.schedule]).tail
          else s.past ++ [s.present.schedule]) = s.past ++ [s.present.schedule]
    rw [if_neg hcond]
  · intro hge
    have hcond : HISTORY_LIMIT < (s.past ++ [s.present.schedule]).length := by
      rw [List.length_append, List.length_singleton]
      omega
    have hne : s.past ≠ [] := by
      intro h
      rw [h] at hge
      simp [HISTORY_LIMIT] at hge
    show (if HISTORY_LIMIT < (s.past ++ [s.present.schedule]).length
          then (s.past ++ [s.present.schedule]).tail
          else s.past ++ [s.present.schedule]) = s.past.tail ++ [s.present.schedule]
    rw [if_pos hcond, List.tail_append,
      if_neg (by simp [List.isEmpty_iff, hne] : ¬ s.past.isEmpty = true)]

theorem record_undoable_mutation_witness :
    (reducer rtState (Action.REPLACE_SCHEDULE [("k", ⟨"t2", "x"⟩)])).future = []
    ∧ (reducer rtState (Action.REPLACE_SCHEDULE [("k", ⟨"t2", "x"⟩)])).past
      = rtState.past ++ [rtState.present.schedule] := by
  have h := record_undoable_mutation rtState
    (Action.REPLACE_SCHEDULE [("k", ⟨"t2", "x"⟩)]) (by decide) (by decide)
  exact ⟨h.1, h.2.2.1 (by decide)⟩

/-- Claim C4: with non-empty past (resp. future), undo (resp. redo)
changes only the schedule field of the present AppState; teachers,
classes, settings, design, ui and printDesign all carry through. -/
theorem undo_redo_only_schedule (s : HistoryState) :
    (s.past ≠ [] →
      (reducer s Action.UNDO).present.teachers = s.present.teachers
      ∧ (reducer s Action.UNDO).present.classes = s.present.classes
      ∧ (reducer s Action.UNDO).present.settings = s.present.settings
      ∧ (reducer s Action.UNDO).present.design = s.present.design
      ∧ (reducer s Action.UNDO).present.ui = s.present.ui
      ∧ (reducer s Action.UNDO).present.printDesign = s.present.printDesign)
    ∧ (s.future ≠ [] →
      (reducer s Action.REDO).present.teachers = s.present.teachers
      ∧ (reducer s Action.REDO).present.classes = s.present.classes
      ∧ (reducer s Action.REDO).present.settings = s.present.settings
      ∧ (reducer s Action.REDO).present.design = s.present.design
      ∧ (reducer s Action.REDO).present.ui = s.present.ui
      ∧ (reducer s Action.REDO).present.printDesign = s.present.printDesign) := by
  constructor
  · intro hp
    cases hpast : s.past.getLast? with
    | none => exact absurd (List.getLast?_eq_none_iff.mp hpast) hp
    | some prev => simp [reducer, hpast]
  · intro hf
    cases hfut : s.future with
    | nil => exact absurd hfut hf
    | cons nxt rest => simp [reducer, hfut]

theorem undo_redo_only_schedule_witness :
    (reducer rtState Action.UNDO).present.teachers = rtState.present.teachers
    ∧ (reducer rtState Action.REDO).present.teachers = rtState.present.teachers := by
  have h := undo_redo_only_schedule rtState
  exact ⟨(h.1 (by decide)).1, (h.2 (by decide)).1⟩

/-- The nine action kinds the spec calls non-undoable mutations:
teacher/class add, update and delete, settings update, design,
print-design and UI updates. -/
def isNonUndoableMutation (a : Action) : Bool :=
  match a with
  | .ADD_TEACHER _ | .UPDATE_TEACHER _ | .DELETE_TEACHER _
  | .ADD_CLASS _ | .UPDATE_CLASS _ | .DELETE_CLASS _
  | .UPDATE_SETTINGS _ | .UPDATE_DESIGN _ | .UPDATE_PRINT_DESIGN _
  | .UPDATE_UI _ => true
  | _ => false

/-- Claim C8: every non-undoable mutation updates the present through
`appReducer` and leaves both history stacks exactly as they were. -/
theorem non_undoable_preserves_history (s : HistoryState) (a : Action)
    (h : isNonUndoableMutation a = true) :
    (reducer s a).past = s.past
    ∧ (reducer s a).future = s.future
    ∧ (reducer s a).present = appReducer s.present a := by
  cases a <;> simp_all [reducer, isNonUndoableMutation, appReducerSame, isUndoable]

theorem non_undoable_preserves_history_witness :
    (reducer rtState (Action.ADD_TEACHER ⟨"t9", "n", "c"⟩)).past = rtState.past
    ∧ (reducer rtState (Action.ADD_TEACHER ⟨"t9", "n", "c"⟩)).future = rtState.future := by
  have h := non_undoable_preserves_history rtState
    (Action.ADD_TEACHER ⟨"t9", "n", "c"⟩) (by decide)
  exact ⟨h.1, h.2.1⟩

/-- Claim C7: deleting a teacher removes, in the same state transition,
every schedule entry whose teacherId is the deleted teacher's id, and
deleting a class removes every entry keyed under that class; afterwards
no schedule entry references the deleted teacher or class. -/
theorem delete_prunes_schedule (s : AppState) (tid cid : String) :
    (∀ kv, kv ∈ (appReducer s (Action.DELETE_TEACHER tid)).schedule ↔
        kv ∈ s.schedule ∧ kv.2.teacherId ≠ tid)
    ∧ (∀ kv ∈ (appReducer s (Action.DELETE_TEACHER tid)).schedule,
        kv.2.teacherId ≠ tid)
    ∧ (∀ kv, kv ∈ (appReducer s (Action.DELETE_CLASS cid)).schedule ↔
        kv ∈ s.schedule ∧ strStartsWith kv.1 (cid ++ "_") = false)
    ∧ (∀ kv ∈ (appReducer s (Action.DELETE_CLASS cid)).schedule,
        strStartsWith kv.1 (cid ++ "_") = false) := by
  refine ⟨fun kv => ?_, fun kv hm => ?_, fun kv => ?_, fun kv hm => ?_⟩
  · simp [appReducer, List.mem_filter]
  · simp [appReducer, List.mem_filter] at hm
    exact hm.2
  · simp [appReducer, List.mem_filter]
  · simp [appReducer, List.mem_filter] at hm
    exact hm.2

/-- A two-entry schedule over the default state for concrete runs. -/
def prState : AppState :=
  { DEFAULT_STATE with
    schedule := [("c1_0_0", ⟨"t1", "m"⟩), ("c2_0_0", ⟨"t2", "m"⟩)] }

theorem delete_prunes_schedule_witness :
    (("c1_0_0", (⟨"t1", "m"⟩ : LessonData)) ∈
      (appReducer prState (Action.DELETE_TEACHER "t2")).schedule)
    ∧ strStartsWith "c2_0_0" ("c1" ++ "_") = false := by
  have h := delete_prunes_schedule prState "t2" "c1"
  exact ⟨(h.1 ("c1_0_0", ⟨"t1", "m"⟩)).mpr ⟨by decide, by decide⟩,
    h.2.2.2 ("c2_0_0", ⟨"t2", "m"⟩) (by decide)⟩

/-- Claim C9: state initialization always yields a fresh history; when the
stored payload is absent or fails to parse the present is the default
state untouched, and a parsed payload is merged over the default state
(so that, in particular, the empty payload backfills every field from the
default). -/
theorem initData_spec (stored : Option (Option AppStatePatch)) :
    (initData stored).past = []
    ∧ (initData stored).future = []
    ∧ (stored = none ∨ stored = some none →
        (initData stored).present = DEFAULT_STATE)
    ∧ (∀ p, stored = some (some p) →
        (initData stored).present = deepMerge DEFAULT_STATE p)
    ∧ deepMerge DEFAULT_STATE emptyAppStatePatch = DEFAULT_STATE := by
  refine ⟨?_, ?_, ?_, ?_, rfl⟩
  · cases stored with
    | none => rfl
    | some o => cases o <;> rfl
  · cases stored with
    | none => rfl
    | some o => cases o <;> rfl
  · rintro (rfl | rfl) <;> rfl
  · rintro p rfl
    rfl

theorem initData_spec_witness :
    (initData (some none)).present = DEFAULT_STATE
    ∧ (initData (some (some emptyAppStatePatch))).present
      = deepMerge DEFAULT_STATE emptyAppStatePatch := by
  have h := initData_spec (some none)
  have h2 := initData_spec (some (some emptyAppStatePatch))
  exact ⟨h.2.2.1 (Or.inr rfl), h2.2.2.2.1 emptyAppStatePatch rfl⟩

/-! ### The history bound -/

lemma reducer_nonundoable (s : HistoryState) (a : Action)
    (h : isNonUndoableMutation a = true) :
    reducer s a = { s with present := appReducer s.present a } := by
  cases a <;> simp_all [reducer, isNonUndoableMutation, appReducerSame, isUndoable]

lemma reducer_same_undoable (s : HistoryState) (a : Action)
    (hu : isUndoable a = true) (hsame : appReducerSame s.present a = true) :
    reducer s a = s := by
  cases a <;> simp_all [reducer, isUndoable, appReducerSame]

/-- The record branch keeps `past` within the bound and clears `future`. -/
lemma record_inv (l : List Schedule) (x : Schedule) (p : AppState)
    (h1 : l.length ≤ 100) :
    (({ past := if HISTORY_LIMIT < (l ++ [x]).length then (l ++ [x]).tail
                else l ++ [x],
        present := p, future := [] } : HistoryState)).past.length ≤ 100
    ∧ ((({ past := if HISTORY_LIMIT < (l ++ [x]).length then (l ++ [x]).tail
                   else l ++ [x],
           present := p, future := [] } : HistoryState)).future ≠ [] →
        False) := by
  constructor
  · show (if HISTORY_LIMIT < (l ++ [x]).length then (l ++ [x]).tail
          else l ++ [x]).length ≤ 100
    split
    · rw [List.length_tail, List.length_append, List.length_singleton]
      omega
    · next hv =>
      rw [List.length_append, List.length_singleton]
      rw [List.length_append, List.length_singleton] at hv
      simp only [HISTORY_LIMIT] at hv
      omega
  · intro hf
    exact hf rfl

/-- One reducer step preserves the history-size invariant: `past` stays
within the bound, and while a redo is possible the combined stack size is
within the bound as well. -/
lemma histInv_step (s : HistoryState) (a : Action)
    (h1 : s.past.length ≤ 100)
    (h2 : s.future ≠ [] → s.past.length + s.future.length ≤ 100) :
    (reducer s a).past.length ≤ 100
    ∧ ((reducer s a).future ≠ [] →
        (reducer s a).past.length + (reducer s a).future.length ≤ 100) := by
  by_cases hrec : isUndoable a = true ∧ appReducerSame s.present a = false
  · rw [reducer_record s a hrec.1 hrec.2]
    have h := record_inv s.past s.present.schedule (appReducer s.present a) h1
    exact ⟨h.1, fun hf => absurd hf (by simp)⟩
  · cases a with
    | INIT p => exact ⟨by simp [reducer], by simp [reducer]⟩
    | RESET_PROJECT => exact ⟨by simp [reducer], by simp [reducer]⟩
    | UNDO =>
      cases hpast : s.past.getLast? with
      | none =>
        have hred : reducer s Action.UNDO = s := by simp [reducer, hpast]
        rw [hred]
        exact ⟨h1, h2⟩
      | some prev =>
        have hne : s.past ≠ [] := by
          intro h
          rw [h] at hpast
          simp at hpast
        have hlen1 : 1 ≤ s.past.length := List.length_pos.mpr hne
        have hred : reducer s Action.UNDO =
            { past := s.past.dropLast,
              present := { s.present with schedule := prev },
              future := s.present.schedule :: s.future } := by
          simp [reducer, hpast]
        rw [hred]
        constructor
        · show s.past.dropLast.length ≤ 100
          rw [List.length_dropLast]
          omega
        · intro _
          show s.past.dropLast.length + (s.present.schedule :: s.future).length ≤ 100
          rw [List.length_dropLast, List.length_cons]
          by_cases hf : s.future = []
          · rw [hf]
            simp only [List.length_nil]
            omega
          · have h2r := h2 hf
            omega
    | REDO =>
      cases hfut : s.future with
      | nil =>
        have hred : reducer s Action.REDO = s := by simp [reducer, hfut]
        rw [hred]
        exact ⟨h1, h2⟩
      | cons nxt rest =>
        have h2r := h2 (by simp [hfut])
        have hflen : s.future.length = rest.length + 1 := by
          rw [hfut]
          rfl
        have hred : reducer s Action.REDO =
            { past := s.past ++ [s.present.schedule],
              present := { s.present with schedule := nxt },
              future := rest } := by
          simp [reducer, hfut]
        rw [hred]
        constructor
        · show (s.past ++ [s.present.schedule]).length ≤ 100
          rw [List.length_append, List.length_singleton]
          omega
        · intro _
          show (s.past ++ [s.present.schedule]).length + rest.length ≤ 100
          rw [List.length_append, List.length_singleton]
          omega
    | MOVE_LESSON f t =>
      have hsame : appReducerSame s.present (Action.MOVE_LESSON f t) = true := by
        by_cases hb : appReducerSame s.present (Action.MOVE_LESSON f t) = true
        · exact hb
        · exact absurd ⟨rfl, by simpa using hb⟩ hrec
      rw [reducer_same_undoable s (Action.MOVE_LESSON f t) rfl hsame]
      exact ⟨h1, h2⟩
    | SET_LESSON k d => exact absurd ⟨rfl, rfl⟩ hrec
    | REPLACE_SCHEDULE sc => exact absurd ⟨rfl, rfl⟩ hrec
    | OPTIMIZE_SCHEDULE => exact absurd ⟨rfl, rfl⟩ hrec
    | ADD_TEACHER t =>
      rw [reducer_nonundoable s (Action.ADD_TEACHER t) rfl]
      exact ⟨h1, h2⟩
    | UPDATE_TEACHER t =>
      rw [reducer_nonundoable s (Action.UPDATE_TEACHER t) rfl]
      exact ⟨h1, h2⟩
    | DELETE_TEACHER i =>
      rw [reducer_nonundoable s (Action.DELETE_TEACHER i) rfl]
      exact ⟨h1, h2⟩
    | ADD_CLASS c =>
      rw [reducer_nonundoable s (Action.ADD_CLASS c) rfl]
      exact ⟨h1, h2⟩
    | UPDATE_CLASS c =>
      rw [reducer_nonundoable s (Action.UPDATE_CLASS c) rfl]
      exact ⟨h1, h2⟩
    | DELETE_CLASS i =>
      rw [reducer_nonundoable s (Action.DELETE_CLASS i) rfl]
      exact ⟨h1, h2⟩
    | UPDATE_SETTINGS p =>
      rw [reducer_nonundoable s (Action.UPDATE_SETTINGS p) rfl]
      exact ⟨h1, h2⟩
    | UPDATE_DESIGN p =>
      rw [reducer_nonundoable s (Action.UPDATE_DESIGN p) rfl]
      exact ⟨h1, h2⟩
    | UPDATE_PRINT_DESIGN p =>
      rw [reducer_nonundoable s (Action.UPDATE_PRINT_DESIGN p) rfl]
      exact ⟨h1, h2⟩
    | UPDATE_UI p =>
      rw [reducer_nonundoable s (Action.UPDATE_UI p) rfl]
      exact ⟨h1, h2⟩

/-- 101 wholesale replacements with pairwise distinct one-entry
schedules. -/
def mkSched (i : Nat) : Schedule :=
  [(natToString i, ⟨"t1", "s"⟩)]

def mkRecordSeq : List Action :=
  (List.range 101).map (fun i => Action.REPLACE_SCHEDULE (mkSched i))

/-- A state whose future stack already exceeds the history bound. -/
def overfullFuture : HistoryState :=
  { past := [], present := DEFAULT_STATE, future := List.replicate 101 [] }

/-- Claim C3, counterexample: from a HistoryState with empty past (but a
long future stack), a sequence of redo actions drives `past` beyond 100
entries, because the redo branch pushes onto `past` without trimming. -/
theorem redo_overflows_past_bound :
    overfullFuture.past = []
    ∧ 100 <
      ((List.replicate 101 Action.REDO).foldl reducer overfullFuture).past.length := by
  constructor
  · rfl
  · decide

/-- Claim C3 (amended: the initial state must have empty past and empty
future, as every state produced by initialization does — redo alone can
otherwise grow past beyond the bound): from such a state no action
sequence ever grows `past` beyond 100 entries; and recording 101 undoable
mutations with distinct schedules leaves exactly 100 entries with the
oldest snapshot dropped. -/
theorem past_never_exceeds_bound (s0 : HistoryState) (acts : List Action)
    (hp : s0.past = []) (hf : s0.future = []) :
    (acts.foldl reducer s0).past.length ≤ 100
    ∧ (mkRecordSeq.foldl reducer (initData none)).past.length = 100
    ∧ (mkRecordSeq.foldl reducer (initData none)).past.head? = some (mkSched 0)
    ∧ DEFAULT_STATE.schedule ∉ (mkRecordSeq.foldl reducer (initData none)).past := by
  have main : ∀ (l : List Action) (s : HistoryState),
      s.past.length ≤ 100 →
      (s.future ≠ [] → s.past.length + s.future.length ≤ 100) →
      (l.foldl reducer s).past.length ≤ 100 := by
    intro l
    induction l with
    | nil =>
      intro s hh1 _
      simpa using hh1
    | cons a rest ih =>
      intro s hh1 hh2
      have step := histInv_step s a hh1 hh2
      simpa using ih (reducer s a) step.1 step.2
  refine ⟨main acts s0 (by simp [hp]) (by simp [hf]), by decide, by decide, by decide⟩

theorem past_never_exceeds_bound_witness :
    (([Action.REPLACE_SCHEDULE [("k", ⟨"t1", "s"⟩)]].foldl reducer
        (initData none)).past.length ≤ 100) := by
  exact (past_never_exceeds_bound (initData none) _ rfl rfl).1

/-! ### Schedule store lemmas -/

@[simp] lemma getKey_nil (k : String) : getKey [] k = none := rfl

@[simp] lemma getKey_cons (k0 : String) (v0 : LessonData) (rest : Schedule)
    (k : String) :
    getKey ((k0, v0) :: rest) k = if k0 = k then some v0 else getKey rest k := rfl

@[simp] lemma hasKey_nil (k : String) : hasKey [] k = false := rfl

lemma hasKey_cons (k0 : String) (v0 : LessonData) (rest : Schedule) (k : String) :
    hasKey ((k0, v0) :: rest) k = (decide (k0 = k) || hasKey rest k) := by
  simp [hasKey]

lemma eraseKey_cons (k0 : String) (v0 : LessonData) (rest : Schedule) (k : String) :
    eraseKey ((k0, v0) :: rest) k =
      if k0 = k then eraseKey rest k else (k0, v0) :: eraseKey rest k := by
  unfold eraseKey
  rw [List.filter_cons]
  by_cases h : k0 = k
  · simp [h]
  · simp [h]

/-- Projection reduction of the in-place replacement function of `setKey`. -/
lemma replace_head_eq (k : String) (v : LessonData) (k0 : String) (w : LessonData) :
    (if (k0, w).1 = k then (k, v) else (k0, w))
      = if k0 = k then (k, v) else (k0, w) := rfl

lemma getKey_none_iff (s : Schedule) (k : String) :
    getKey s k = none ↔ hasKey s k = false := by
  induction s with
  | nil => simp
  | cons kv rest ih =>
    obtain ⟨k0, v⟩ := kv
    by_cases h : k0 = k
    · simp [hasKey_cons, h]
    · simp [hasKey_cons, h]
      exact ih

lemma hasKey_of_getKey_some (s : Schedule) (k : String) (v : LessonData)
    (h : getKey s k = some v) : hasKey s k = true := by
  by_cases hb : hasKey s k = true
  · exact hb
  · rw [(getKey_none_iff s k).mpr (by simpa using hb)] at h
    cases h

lemma getKey_setKey_self (s : Schedule) (k : String) (v : LessonData) :
    getKey (setKey s k v) k = some v := by
  unfold setKey
  split
  · next hk =>
    induction s with
    | nil => simp at hk
    | cons kv rest ih =>
      obtain ⟨k0, w⟩ := kv
      rw [List.map_cons, replace_head_eq]
      by_cases h0 : k0 = k
      · rw [if_pos h0, getKey_cons, if_pos rfl]
      · rw [if_neg h0, getKey_cons, if_neg h0]
        exact ih (by simpa [hasKey_cons, h0] using hk)
  · next hk =>
    rw [Bool.not_eq_true] at hk
    induction s with
    | nil => simp
    | cons kv rest ih =>
      obtain ⟨k0, w⟩ := kv
      rw [hasKey_cons, Bool.or_eq_false_iff] at hk
      rw [List.cons_append, getKey_cons,
        if_neg (by simpa using hk.1)]
      exact ih hk.2

lemma getKey_setKey_ne (s : Schedule) (k k' : String) (v : LessonData)
    (h : k' ≠ k) : getKey (setKey s k v) k' = getKey s k' := by
  unfold setKey
  split
  · next hk =>
    clear hk
    induction s with
    | nil => rfl
    | cons kv rest ih =>
      obtain ⟨k0, w⟩ := kv
      rw [List.map_cons, replace_head_eq]
      by_cases h0 : k0 = k
      · rw [if_pos h0, getKey_cons, getKey_cons,
          if_neg (fun hx => h hx.symm),
          if_neg (fun hx => h (hx.symm.trans h0))]
        exact ih
      · rw [if_neg h0, getKey_cons, getKey_cons]
        by_cases h1 : k0 = k'
        · rw [if_pos h1, if_pos h1]
        · rw [if_neg h1, if_neg h1]
          exact ih
  · next hk =>
    clear hk
    induction s with
    | nil =>
      rw [List.nil_append, getKey_cons, if_neg (fun hx => h hx.symm)]
    | cons kv rest ih =>
      obtain ⟨k0, w⟩ := kv
      rw [List.cons_append, getKey_cons, getKey_cons]
      by_cases h1 : k0 = k'
      · rw [if_pos h1, if_pos h1]
      · rw [if_neg h1, if_neg h1]
        exact ih

lemma getKey_eraseKey_self (s : Schedule) (k : String) :
    getKey (eraseKey s k) k = none := by
  induction s with
  | nil => rfl
  | cons kv rest ih =>
    obtain ⟨k0, v⟩ := kv
    rw [eraseKey_cons]
    by_cases h : k0 = k
    · rw [if_pos h]
      exact ih
    · rw [if_neg h, getKey_cons, if_neg h]
      exact ih

lemma getKey_eraseKey_ne (s : Schedule) (k k' : String) (h : k' ≠ k) :
    getKey (eraseKey s k) k' = getKey s k' := by
  induction s with
  | nil => rfl
  | cons kv rest ih =>
    obtain ⟨k0, v⟩ := kv
    rw [eraseKey_cons]
    by_cases h0 : k0 = k
    · rw [if_pos h0, getKey_cons, if_neg (fun hx => h (hx.symm.trans h0))]
      exact ih
    · rw [if_neg h0, getKey_cons, getKey_cons]
      by_cases h1 : k0 = k'
      · rw [if_pos h1, if_pos h1]
      · rw [if_neg h1, if_neg h1]
        exact ih

lemma keys_setKey_of_hasKey (s : Schedule) (k : String) (v : LessonData)
    (h : hasKey s k = true) :
    (setKey s k v).map Prod.fst = s.map Prod.fst := by
  unfold setKey
  rw [if_pos h, List.map_map]
  apply List.map_congr_left
  intro kv _
  by_cases hx : kv.1 = k
  · simp [hx]
  · simp [hx]

lemma length_setKey_of_hasKey (s : Schedule) (k : String) (v : LessonData)
    (h : hasKey s k = true) : (setKey s k v).length = s.length := by
  unfold setKey
  rw [if_pos h, List.length_map]

lemma hasKey_eq_any_keys (s : Schedule) (k : String) :
    hasKey s k = (s.map Prod.fst).any (fun x => x = k) := by
  induction s with
  | nil => rfl
  | cons kv rest ih =>
    obtain ⟨k0, v⟩ := kv
    rw [hasKey_cons, List.map_cons, List.any_cons, ← ih]

lemma length_eraseKey_of_hasKey (s : Schedule) (k : String)
    (hn : (s.map Prod.fst).Nodup) (h : hasKey s k = true) :
    (eraseKey s k).length + 1 = s.length := by
  induction s with
  | nil => simp at h
  | cons kv rest ih =>
    obtain ⟨k0, v⟩ := kv
    rw [List.map_cons, List.nodup_cons] at hn
    rw [eraseKey_cons]
    by_cases hk : k0 = k
    · rw [if_pos hk]
      have hrest : eraseKey rest k = rest := by
        unfold eraseKey
        apply List.filter_eq_self.mpr
        intro kv2 hkv2
        simp only [decide_eq_true_eq]
        intro hx
        exact hn.1 (List.mem_map.mpr ⟨kv2, hkv2, hx.trans hk.symm⟩)
      rw [hrest, List.length_cons]
    · rw [if_neg hk, List.length_cons, List.length_cons]
      have hrest : hasKey rest k = true := by
        simpa [hasKey_cons, hk] using h
      have := ih hn.2 hrest
      omega

/-- Claim C10: MOVE_LESSON with an empty source key is a no-op; with an
occupied target it swaps the two placements; otherwise it relocates the
source placement to the target key and clears the source key; in every
case the total number of placements is preserved (the key set of a JS
object has no duplicates). -/
theorem move_lesson_spec (s : AppState) (fromKey toKey : String)
    (hn : (s.schedule.map Prod.fst).Nodup) :
    (getKey s.schedule fromKey = none →
      appReducer s (Action.MOVE_LESSON fromKey toKey) = s)
    ∧ (∀ src tgt, getKey s.schedule fromKey = some src →
        getKey s.schedule toKey = some tgt →
        (getKey (appReducer s (Action.MOVE_LESSON fromKey toKey)).schedule toKey
            = some src
          ∧ getKey (appReducer s (Action.MOVE_LESSON fromKey toKey)).schedule fromKey
            = some tgt
          ∧ ∀ k, k ≠ fromKey → k ≠ toKey →
              getKey (appReducer s (Action.MOVE_LESSON fromKey toKey)).schedule k
                = getKey s.schedule k))
    ∧ (∀ src, getKey s.schedule fromKey = some src →
        getKey s.schedule toKey = none →
        (getKey (appReducer s (Action.MOVE_LESSON fromKey toKey)).schedule toKey
            = some src
          ∧ getKey (appReducer s (Action.MOVE_LESSON fromKey toKey)).schedule fromKey
            = none
          ∧ ∀ k, k ≠ fromKey → k ≠ toKey →
              getKey (appReducer s (Action.MOVE_LESSON fromKey toKey)).schedule k
                = getKey s.schedule k))
    ∧ (appReducer s (Action.MOVE_LESSON fromKey toKey)).schedule.length
        = s.schedule.length := by
  refine ⟨?_, ?_, ?_, ?_⟩
  · intro hnone
    simp [appReducer, hnone]
  · intro src tgt hfrom hto
    have hsched : (appReducer s (Action.MOVE_LESSON fromKey toKey)).schedule
        = setKey (setKey s.schedule toKey src) fromKey tgt := by
      simp [appReducer, hfrom, hto]
    rw [hsched]
    refine ⟨?_, getKey_setKey_self _ _ _, ?_⟩
    · by_cases heq : fromKey = toKey
      · subst heq
        rw [hfrom] at hto
        injection hto with htv
        rw [getKey_setKey_self]
        rw [htv]
      · rw [getKey_setKey_ne _ _ _ _ (fun hx => heq hx.symm),
          getKey_setKey_self]
    · intro k hkf hkt
      rw [getKey_setKey_ne _ _ _ _ hkf, getKey_setKey_ne _ _ _ _ hkt]
  · intro src hfrom hto
    have hne : fromKey ≠ toKey := by
      intro h
      rw [h, hto] at hfrom
      cases hfrom
    have hsched : (appReducer s (Action.MOVE_LESSON fromKey toKey)).schedule
        = eraseKey (setKey s.schedule toKey src) fromKey := by
      simp [appReducer, hfrom, hto]
    rw [hsched]
    refine ⟨?_, getKey_eraseKey_self _ _, ?_⟩
    · rw [getKey_eraseKey_ne _ _ _ (fun hx => hne hx.symm), getKey_setKey_self]
    · intro k hkf hkt
      rw [getKey_eraseKey_ne _ _ _ hkf, getKey_setKey_ne _ _ _ _ hkt]
  · cases hfrom : getKey s.schedule fromKey with
    | none => simp [appReducer, hfrom]
    | some src =>
      cases hto : getKey s.schedule toKey with
      | some tgt =>
        have hsched : (appReducer s (Action.MOVE_LESSON fromKey toKey)).schedule
            = setKey (setKey s.schedule toKey src) fromKey tgt := by
          simp [appReducer, hfrom, hto]
        rw [hsched]
        have hkto : hasKey s.schedule toKey = true :=
          hasKey_of_getKey_some _ _ _ hto
        have hkfrom : hasKey (setKey s.schedule toKey src) fromKey = true := by
          rw [hasKey_eq_any_keys, keys_setKey_of_hasKey _ _ _ hkto,
            ← hasKey_eq_any_keys]
          exact hasKey_of_getKey_some _ _ _ hfrom
        rw [length_setKey_of_hasKey _ _ _ hkfrom,
          length_setKey_of_hasKey _ _ _ hkto]
      | none =>
        have hne : fromKey ≠ toKey := by
          intro h
          rw [h, hto] at hfrom
          cases hfrom
        have hsched : (appReducer s (Action.MOVE_LESSON fromKey toKey)).schedule
            = eraseKey (setKey s.schedule toKey src) fromKey := by
          simp [appReducer, hfrom, hto]
        rw [hsched]
        have happ : setKey s.schedule toKey src = s.schedule ++ [(toKey, src)] := by
          unfold setKey
          rw [if_neg (by simp [(getKey_none_iff _ _).mp hto])]
        rw [happ]
        have hts : ¬ toKey = fromKey := fun hx => hne hx.symm
        have hsplit : eraseKey (s.schedule ++ [(toKey, src)]) fromKey
            = eraseKey s.schedule fromKey ++ [(toKey, src)] := by
          unfold eraseKey
          rw [List.filter_append]
          simp [hts]
        rw [hsplit, List.length_append, List.length_singleton]
        have := length_eraseKey_of_hasKey s.schedule fromKey hn
          (hasKey_of_getKey_some _ _ _ hfrom)
        omega

theorem move_lesson_spec_witness :
    (appReducer prState (Action.MOVE_LESSON "c1_0_0" "c9_0_0")).schedule.length
      = prState.schedule.length := by
  exact (move_lesson_spec prState "c1_0_0" "c9_0_0" (by decide)).2.2.2

/-! ### Time Grid Calculator properties -/

lemma slotsAux_lessons (ld bd b : Nat) :
    ∀ rem placed idx t,
      ((slotsAux ld bd b rem placed idx t).filter (fun sl => !sl.isBreak)).length
        = rem := by
  intro rem
  induction rem with
  | zero =>
    intro placed idx t
    rfl
  | succ n ih =>
    intro placed idx t
    by_cases hc : (placed + 1) % b = 0 ∧ n ≠ 0
    · simp only [slotsAux, if_pos hc, List.filter_cons]
      simp [ih]
    · simp only [slotsAux, if_neg hc, List.filter_cons]
      simp [ih]

lemma slotsAux_breaks (ld bd b : Nat) :
    ∀ rem placed idx t,
      ((slotsAux ld bd b rem placed idx t).filter (fun sl => sl.isBreak)).length
        = (placed + rem - 1) / b - placed / b := by
  intro rem
  induction rem with
  | zero =>
    intro placed idx t
    have hle : (placed + 0 - 1) / b ≤ placed / b :=
      Nat.div_le_div_right (by omega)
    simp only [slotsAux, List.filter_nil, List.length_nil]
    obtain ⟨X, hX⟩ : ∃ X, (placed + 0 - 1) / b = X := ⟨_, rfl⟩
    obtain ⟨P, hP⟩ : ∃ P, placed / b = P := ⟨_, rfl⟩
    rw [hX, hP] at hle ⊢
    omega
  | succ n ih =>
    intro placed idx t
    have heq1 : placed + (n + 1) - 1 = placed + n := by omega
    by_cases hc : (placed + 1) % b = 0 ∧ n ≠ 0
    · have hdvd : b ∣ placed + 1 := Nat.dvd_of_mod_eq_zero hc.1
      have hsucc : (placed + 1) / b = placed / b + 1 := by
        rw [Nat.succ_div, if_pos hdvd]
      have hmono : (placed + 1) / b ≤ (placed + n) / b :=
        Nat.div_le_div_right (by omega)
      have ih2 := ih (placed + 1) (idx + 2) (t + ld + bd)
      have heq2 : placed + 1 + n - 1 = placed + n := by omega
      rw [heq2, hsucc] at ih2
      rw [hsucc] at hmono
      have hunf : slotsAux ld bd b (n + 1) placed idx t
          = ⟨idx, false, t, t + ld⟩ ::
            ⟨idx + 1, true, t + ld, t + ld + bd⟩ ::
            slotsAux ld bd b n (placed + 1) (idx + 2) (t + ld + bd) := by
        simp only [slotsAux, if_pos hc]
      rw [hunf, List.filter_cons, List.filter_cons,
        if_neg (by simp), if_pos (by simp), List.length_cons, ih2, heq1]
      obtain ⟨X, hX⟩ : ∃ X, (placed + n) / b = X := ⟨_, rfl⟩
      obtain ⟨P, hP⟩ : ∃ P, placed / b = P := ⟨_, rfl⟩
      rw [hX, hP] at hmono ⊢
      omega
    · have hunf : slotsAux ld bd b (n + 1) placed idx t
          = ⟨idx, false, t, t + ld⟩ ::
            slotsAux ld bd b n (placed + 1) (idx + 1) (t + ld) := by
        simp only [slotsAux, if_neg hc]
      rw [hunf, List.filter_cons, if_neg (by simp)]
      rcases Decidable.em (n = 0) with hn | hn
      · subst hn
        rw [show slotsAux ld bd b 0 (placed + 1) (idx + 1) (t + ld) = ([] : List TimeSlot)
          from rfl]
        rw [List.filter_nil, List.length_nil, heq1, Nat.add_zero, Nat.sub_self]
      · have hmod : (placed + 1) % b ≠ 0 := fun hm => hc ⟨hm, hn⟩
        have hnd : ¬ b ∣ placed + 1 := by
          intro hd
          obtain ⟨c, hcq⟩ := hd
          exact hmod (by rw [hcq, Nat.mul_mod_right])
        have hsame : (placed + 1) / b = placed / b := by
          rw [Nat.succ_div, if_neg hnd]
          exact Nat.add_zero _
        have ih2 := ih (placed + 1) (idx + 1) (t + ld)
        have heq2 : placed + 1 + n - 1 = placed + n := by omega
        rw [heq2, hsame] at ih2
        rw [ih2, heq1]

/-- The claim's contiguity checker: every slot starts where the previous
slot ended (the first at the given start time), lesson slots lasting the
lesson duration and break slots the break duration. -/
def contiguousFrom (ld bd : Nat) : Nat → List TimeSlot → Bool
  | _, [] => true
  | t0, sl :: rest =>
    (sl.startMin == t0
      && sl.endMin == sl.startMin + (if sl.isBreak then bd else ld))
      && contiguousFrom ld bd sl.endMin rest

lemma slotsAux_contiguous (ld bd b : Nat) :
    ∀ rem placed idx t,
      contiguousFrom ld bd t (slotsAux ld bd b rem placed idx t) = true := by
  intro rem
  induction rem with
  | zero =>
    intro placed idx t
    rfl
  | succ n ih =>
    intro placed idx t
    by_cases hc : (placed + 1) % b = 0 ∧ n ≠ 0
    · simp only [slotsAux, if_pos hc, contiguousFrom]
      simp [ih]
    · simp only [slotsAux, if_neg hc, contiguousFrom]
      simp [ih]

/-- Claim C6: for every TimeSettings with a parseable start time,
`calculateTimeSlots` yields exactly `totalLessons` lesson slots, with
break slots after every `lessonsBeforeBreak` lessons (their count is
`(totalLessons - 1) / lessonsBeforeBreak`, hence none at all once
`lessonsBeforeBreak ≥ totalLessons`), contiguous slot times from the
start time with lesson slots of `lessonDuration` minutes and break slots
of `breakDuration` minutes, and the documented 08:00 four-lesson sample
comes out exactly as specified. -/
theorem calculateTimeSlots_spec (s : TimeSettings) (start : Nat)
    (hparse : parseHHMM s.startTime = some start) :
    ((calculateTimeSlots s).filter (fun sl => !sl.isBreak)).length = s.totalLessons
    ∧ ((calculateTimeSlots s).filter (fun sl => sl.isBreak)).length
        = (s.totalLessons - 1) / s.lessonsBeforeBreak
    ∧ (s.totalLessons ≤ s.lessonsBeforeBreak →
        ((calculateTimeSlots s).filter (fun sl => sl.isBreak)).length = 0)
    ∧ contiguousFrom s.lessonDuration s.breakDuration start
        (calculateTimeSlots s) = true
    ∧ calculateTimeSlots
        { lessonDuration := 45, breakDuration := 15, lessonsBeforeBreak := 2,
          startTime := "08:00", totalLessons := 4 }
        = [⟨0, false, 480, 525⟩, ⟨1, false, 525, 570⟩, ⟨2, true, 570, 585⟩,
            ⟨3, false, 585, 630⟩, ⟨4, false, 630, 675⟩] := by
  have hcalc : calculateTimeSlots s
      = slotsAux s.lessonDuration s.breakDuration s.lessonsBeforeBreak
          s.totalLessons 0 0 start := by
    unfold calculateTimeSlots
    rw [hparse]
  have hbr : ((calculateTimeSlots s).filter (fun sl => sl.isBreak)).length
      = (s.totalLessons - 1) / s.lessonsBeforeBreak := by
    rw [hcalc, slotsAux_breaks]
    rw [Nat.zero_add, Nat.zero_div, Nat.sub_zero]
  refine ⟨?_, hbr, ?_, ?_, by decide⟩
  · rw [hcalc]
    exact slotsAux_lessons _ _ _ _ _ _ _
  · intro hge
    rw [hbr]
    rcases Nat.eq_zero_or_pos s.lessonsBeforeBreak with hb | hb
    · rw [hb, Nat.div_zero]
    · exact Nat.div_eq_of_lt (by omega)
  · rw [hcalc]
    exact slotsAux_contiguous _ _ _ _ _ _ _

theorem calculateTimeSlots_spec_witness :
    ((calculateTimeSlots
        { lessonDuration := 45, breakDuration := 15, lessonsBeforeBreak := 2,
          startTime := "08:00", totalLessons := 4 }).filter
        (fun sl => !sl.isBreak)).length = 4
    ∧ ((calculateTimeSlots
        { lessonDuration := 45, breakDuration := 15, lessonsBeforeBreak := 2,
          startTime := "08:00", totalLessons := 4 }).filter
        (fun sl => sl.isBreak)).length = (4 - 1) / 2 := by
  have h := calculateTimeSlots_spec
    { lessonDuration := 45, breakDuration := 15, lessonsBeforeBreak := 2,
      startTime := "08:00", totalLessons := 4 } 480 (by decide)
  exact ⟨h.1, h.2.1⟩

/-! ### Optimizer Engine properties -/

/-- The slot indices already occupied by a class in the working placement
list. -/
def usedSlots (c : String) (placed : List Placement) : List Nat :=
  (placed.filter (fun p => p.classId = c)).map (fun p => p.slotIdx)

lemma usedSlots_eq_nil_iff (c : String) (l : List Placement) :
    usedSlots c l = [] ↔ ∀ p ∈ l, p.classId ≠ c := by
  unfold usedSlots
  simp [List.map_eq_nil_iff, List.filter_eq_nil_iff]

lemma placeClassLessons_mem (periods : List Nat) (c : String) :
    ∀ (pool : List LessonData) (acc : List Placement) (p : Placement),
      p ∈ placeClassLessons periods c pool acc → p ∈ acc ∨ p.classId = c := by
  intro pool
  induction pool with
  | nil =>
    intro acc p hp
    exact Or.inl hp
  | cons d rest ih =>
    intro acc p hp
    cases hff : firstFit acc c d.teacherId periods with
    | some i =>
      rw [show placeClassLessons periods c (d :: rest) acc
          = placeClassLessons periods c rest (acc ++ [⟨c, i, d⟩]) from by
        simp only [placeClassLessons, hff]] at hp
      rcases ih _ p hp with hin | hc
      · rcases List.mem_append.mp hin with h1 | h2
        · exact Or.inl h1
        · exact Or.inr (by rw [List.mem_singleton.mp h2])
      · exact Or.inr hc
    | none =>
      rw [show placeClassLessons periods c (d :: rest) acc
          = placeClassLessons periods c rest acc from by
        simp only [placeClassLessons, hff]] at hp
      exact ih _ p hp

lemma placeClassLessons_length (periods : List Nat) (c : String) :
    ∀ (pool : List LessonData) (acc : List Placement),
      periods.Nodup →
      (usedSlots c acc).Nodup →
      (∀ i ∈ usedSlots c acc, i ∈ periods) →
      (usedSlots c acc).length + pool.length ≤ periods.length →
      (placeClassLessons periods c pool acc).length
        = acc.length + pool.length := by
  intro pool
  induction pool with
  | nil =>
    intro acc _ _ _ _
    simp [placeClassLessons]
  | cons d rest ih =>
    intro acc hpn hun hsub hlen
    have hex : ∃ i ∈ periods, slotFree acc c i = true := by
      by_contra hno
      push_neg at hno
      have hsub2 : periods ⊆ usedSlots c acc := by
        intro i hi
        have hfree := hno i hi
        unfold slotFree at hfree
        simp only [Bool.not_eq_true, Bool.not_eq_false', List.any_eq_true,
          decide_eq_true_eq] at hfree
        obtain ⟨p, hp, hpc, hpi⟩ := hfree
        unfold usedSlots
        exact List.mem_map.mpr
          ⟨p, List.mem_filter.mpr ⟨hp, by simp [hpc]⟩, hpi⟩
      have hlen2 := (List.Nodup.subperm hpn hsub2).length_le
      rw [List.length_cons] at hlen
      omega
    obtain ⟨i, hip, hif⟩ := hex
    have hff : ∃ j, firstFit acc c d.teacherId periods = some j := by
      unfold firstFit
      cases h1 : periods.find?
          (fun i => slotFree acc c i && conflictFree acc c d.teacherId i) with
      | some j => exact ⟨j, rfl⟩
      | none =>
        cases h2 : periods.find? (fun i => slotFree acc c i) with
        | some j => exact ⟨j, rfl⟩
        | none => exact absurd hif (by simpa using List.find?_eq_none.mp h2 i hip)
    obtain ⟨j, hj⟩ := hff
    have hjp : j ∈ periods ∧ slotFree acc c j = true := by
      unfold firstFit at hj
      cases h1 : periods.find?
          (fun i => slotFree acc c i && conflictFree acc c d.teacherId i) with
      | some j2 =>
        rw [h1] at hj
        injection hj with hjj
        subst hjj
        have hpr := List.find?_some h1
        rw [Bool.and_eq_true] at hpr
        exact ⟨List.mem_of_find?_eq_some h1, hpr.1⟩
      | none =>
        rw [h1] at hj
        exact ⟨List.mem_of_find?_eq_some hj, List.find?_some hj⟩
    obtain ⟨hjmem, hjfree⟩ := hjp
    have hnotmem : j ∉ usedSlots c acc := by
      intro hmem
      unfold usedSlots at hmem
      obtain ⟨p, hpf, hpi⟩ := List.mem_map.mp hmem
      obtain ⟨hpmem, hpc⟩ := List.mem_filter.mp hpf
      unfold slotFree at hjfree
      simp only [Bool.not_eq_true', List.any_eq_false, decide_eq_true_eq] at hjfree
      exact hjfree p hpmem ⟨by simpa using hpc, hpi⟩
    have husd : usedSlots c (acc ++ [⟨c, j, d⟩]) = usedSlots c acc ++ [j] := by
      unfold usedSlots
      rw [List.filter_append, List.map_append]
      simp
    have hn2 : (usedSlots c (acc ++ [(⟨c, j, d⟩ : Placement)])).Nodup := by
      rw [husd]
      simp [List.nodup_append, hun, hnotmem]
    have hs2 : ∀ i2 ∈ usedSlots c (acc ++ [(⟨c, j, d⟩ : Placement)]), i2 ∈ periods := by
      rw [husd]
      intro i2 hi2
      rcases List.mem_append.mp hi2 with h1 | h2
      · exact hsub i2 h1
      · rw [List.mem_singleton.mp h2]
        exact hjmem
    have hl2 : (usedSlots c (acc ++ [(⟨c, j, d⟩ : Placement)])).length + rest.length
        ≤ periods.length := by
      rw [husd, List.length_append, List.length_singleton]
      rw [List.length_cons] at hlen
      omega
    have hrec := ih (acc ++ [⟨c, j, d⟩]) hpn hn2 hs2 hl2
    rw [show placeClassLessons periods c (d :: rest) acc
        = placeClassLessons periods c rest (acc ++ [⟨c, j, d⟩]) from by
      simp only [placeClassLessons, hj]]
    rw [hrec, List.length_append, List.length_singleton, List.length_cons]
    omega

lemma optimize_fold_length (sched : Schedule) (periods : List Nat)
    (hpn : periods.Nodup) :
    ∀ (cs : List ClassGroup) (acc : List Placement),
      (cs.map (fun c => c.id)).Nodup →
      (∀ c ∈ cs, (classPool sched c.id).length ≤ periods.length) →
      (∀ c ∈ cs, usedSlots c.id acc = []) →
      (cs.foldl
          (fun acc c => placeClassLessons periods c.id (classPool sched c.id) acc)
          acc).length
        = acc.length + (cs.map (fun c => (classPool sched c.id).length)).sum := by
  intro cs
  induction cs with
  | nil =>
    intro acc _ _ _
    simp
  | cons c cs' ih =>
    intro acc hnod hfit hempty
    rw [List.foldl_cons]
    rw [List.map_cons, List.nodup_cons] at hnod
    have hacc : usedSlots c.id acc = [] := hempty c (List.mem_cons_self c cs')
    have hstep := placeClassLessons_length periods c.id (classPool sched c.id)
      acc hpn (by rw [hacc]; exact List.nodup_nil)
      (by rw [hacc]; intro i hi; cases hi)
      (by
        rw [hacc, List.length_nil, Nat.zero_add]
        exact hfit c (List.mem_cons_self c cs'))
    have hnext : ∀ c' ∈ cs',
        usedSlots c'.id
          (placeClassLessons periods c.id (classPool sched c.id) acc) = [] := by
      intro c' hc'
      rw [usedSlots_eq_nil_iff]
      intro p hp
      rcases placeClassLessons_mem periods c.id (classPool sched c.id) acc p hp with
        hin | hcid
      · exact (usedSlots_eq_nil_iff c'.id acc).mp
          (hempty c' (List.mem_cons_of_mem c hc')) p hin
      · rw [hcid]
        intro he
        exact hnod.1 (List.mem_map.mpr ⟨c', hc', he.symm⟩)
    rw [ih _ hnod.2 (fun c' h => hfit c' (List.mem_cons_of_mem c h)) hnext, hstep]
    rw [List.map_cons, List.sum_cons]
    omega

lemma filter_or_length {α : Type} (l : List α) (p q : α → Bool) :
    (l.filter (fun a => p a || q a)).length
      ≤ (l.filter p).length + (l.filter q).length := by
  induction l with
  | nil => simp
  | cons a tl ih =>
    rw [List.filter_cons, List.filter_cons, List.filter_cons]
    cases hp : p a <;> cases hq : q a <;> simp [hp, hq] <;> omega

lemma filter_any_le_sum (sched : Schedule) :
    ∀ (cs : List ClassGroup),
      (sched.filter
          (fun kv => cs.any (fun c => strStartsWith kv.1 (c.id ++ "_")))).length
        ≤ (cs.map (fun c => (classPool sched c.id).length)).sum := by
  intro cs
  induction cs with
  | nil => simp
  | cons c cs' ih =>
    have hsplit :
        (sched.filter
            (fun kv => (c :: cs').any (fun c2 => strStartsWith kv.1 (c2.id ++ "_")))).length
          ≤ (sched.filter (fun kv => strStartsWith kv.1 (c.id ++ "_"))).length
            + (sched.filter
                (fun kv => cs'.any (fun c2 => strStartsWith kv.1 (c2.id ++ "_")))).length := by
      have h := filter_or_length sched
        (fun kv => strStartsWith kv.1 (c.id ++ "_"))
        (fun kv => cs'.any (fun c2 => strStartsWith kv.1 (c2.id ++ "_")))
      simpa [List.any_cons] using h
    have hpool : (classPool sched c.id).length
        = (sched.filter (fun kv => strStartsWith kv.1 (c.id ++ "_"))).length := by
      unfold classPool
      rw [List.length_map]
    rw [List.map_cons, List.sum_cons]
    omega

/-- Inputs making the optimizer drop a lesson: one class whose two
existing placements exceed the single assignable slot. -/
def ex5sched : Schedule := [("c1_0", ⟨"t1", "m"⟩), ("c1_1", ⟨"t1", "m"⟩)]

def ex5classes : List ClassGroup := [⟨"c1", "x"⟩]

def ex5slots : List TimeSlot := [⟨0, false, 0, 45⟩]

/-- Claim C5, counterexample: when a class holds more placements than
there are assignable (non-break) slots, the optimizer cannot give every
pending lesson a position and the output has fewer placements than the
pruned input — here 1 against 2. -/
theorem optimize_drops_overfull_class :
    ¬ ((ex5sched.filter
          (fun kv => ex5classes.any (fun c => strStartsWith kv.1 (c.id ++ "_")))).length
        ≤ (runOptimization ex5sched ex5classes ex5slots).length) := by
  decide

/-- Claim C5 (amended: provided class ids are pairwise distinct and each
class's existing placements number at most the count of non-break slots):
the optimized schedule contains at least as many placements as the input
schedule, up to removal of placements whose class no longer exists. -/
theorem optimize_conserves_placements (sched : Schedule)
    (classes : List ClassGroup) (slots : List TimeSlot)
    (hids : (classes.map (fun c => c.id)).Nodup)
    (hfit : ∀ c ∈ classes, (classPool sched c.id).length
        ≤ (slots.filter (fun sl => !sl.isBreak)).length) :
    (sched.filter
        (fun kv => classes.any (fun c => strStartsWith kv.1 (c.id ++ "_")))).length
      ≤ (runOptimization sched classes slots).length := by
  have hlen : (runOptimization sched classes slots).length
      = (classes.map (fun c => (classPool sched c.id).length)).sum := by
    unfold runOptimization
    rw [List.length_map]
    rw [optimize_fold_length sched
      (List.range (slots.filter (fun sl => !sl.isBreak)).length)
      (List.nodup_range _) classes [] hids
      (by
        intro c hc
        rw [List.length_range]
        exact hfit c hc)
      (fun c _ => rfl)]
    rw [List.length_nil, Nat.zero_add]
  rw [hlen]
  exact filter_any_le_sum sched classes

theorem optimize_conserves_placements_witness :
    ((ex5sched.filter
        (fun kv => ex5classes.any (fun c => strStartsWith kv.1 (c.id ++ "_")))).length
      ≤ (runOptimization ex5sched ex5classes
          [⟨0, false, 0, 45⟩, ⟨1, false, 45, 90⟩]).length) := by
  exact optimize_conserves_placements ex5sched ex5classes
    [⟨0, false, 0, 45⟩, ⟨1, false, 45, 90⟩] (by decide) (by decide)

end ElyasTime
